import Mathlib

/-!
Verification of the numerical analysis pipeline of `src/app.py` (ECG descriptor
computation): ECDF, basic statistics, autocorrelation, kernel density
estimation, Welch power spectral density, and segment extraction.

Samples are embedded as exact rationals (`ℚ`), standing in for the float
arithmetic of the source; irrational-valued operations (square root, the
trigonometric transforms of the spectral estimator) live in `ℝ`.
-/

/-- `np.sort(data)` (`src/app.py`, line 43): returns a sorted copy of the
array, ascending order; the input array is not mutated. -/
def npSort (data : List ℚ) : List ℚ :=
  data.mergeSort (fun a b => a ≤ b)

/-- `ecdf` (`src/app.py`, lines 41-45):
`x = np.sort(data); y = np.arange(1, len(x) + 1) / len(x); return x, y`. -/
def ecdf (data : List ℚ) : List ℚ × List ℚ :=
  (npSort data,
    (List.range (npSort data).length).map
      (fun i : ℕ => ((i : ℚ) + 1) / ((npSort data).length : ℚ)))

lemma length_npSort (data : List ℚ) : (npSort data).length = data.length :=
  List.length_mergeSort data

lemma npSort_perm (data : List ℚ) : (npSort data).Perm data :=
  List.mergeSort_perm data _

lemma npSort_sorted (data : List ℚ) : (npSort data).Sorted (· ≤ ·) := by
  have h := @List.sorted_mergeSort ℚ (fun a b : ℚ => decide (a ≤ b))
    (by intro a b c hab hbc; simp only [decide_eq_true_eq] at *; exact le_trans hab hbc)
    (by intro a b; simpa using le_total a b) data
  exact h.imp (by simp)

lemma getD_map_range (f : ℕ → ℚ) (n i : ℕ) (h : i < n) :
    (((List.range n).map f).getD i 0) = f i := by
  simp [List.getD_eq_getElem?_getD, List.getElem?_map, List.getElem?_range h]

/-- C1: For every non-empty input, `ecdf` returns `(x, y)` of the length `N`
of the input, with `x` a sorted-ascending permutation of the input and
`y i = (i + 1) / N`, strictly increasing from `1 / N` to exactly `1`. -/
theorem ecdf_spec (data : List ℚ) (h : data ≠ []) :
    (ecdf data).1.length = data.length ∧
    (ecdf data).2.length = data.length ∧
    (ecdf data).1.Perm data ∧
    (ecdf data).1.Sorted (· ≤ ·) ∧
    (∀ i, i < data.length →
      (ecdf data).2.getD i 0 = ((i : ℚ) + 1) / (data.length : ℚ)) ∧
    (ecdf data).2.Pairwise (· < ·) ∧
    (ecdf data).2.getD 0 0 = 1 / (data.length : ℚ) ∧
    (ecdf data).2.getD (data.length - 1) 0 = 1 := by
  have hN : 0 < data.length := List.length_pos.2 h
  have hNQ : (0 : ℚ) < (data.length : ℚ) := by exact_mod_cast hN
  have hlen : (npSort data).length = data.length := length_npSort data
  have hy : ∀ i, i < data.length →
      (ecdf data).2.getD i 0 = ((i : ℚ) + 1) / (data.length : ℚ) := by
    intro i hi
    simp only [ecdf, hlen]
    exact getD_map_range _ _ _ hi
  refine ⟨by simp [ecdf, hlen], by simp [ecdf, hlen], npSort_perm data,
    npSort_sorted data, hy, ?_, ?_, ?_⟩
  · simp only [ecdf, hlen]
    refine List.pairwise_map.2 ((List.pairwise_lt_range data.length).imp ?_)
    intro a b hab
    have : (a : ℚ) + 1 < (b : ℚ) + 1 := by exact_mod_cast Nat.succ_lt_succ hab
    exact (div_lt_div_iff_of_pos_right hNQ).mpr this
  · have h0 := hy 0 hN
    simpa using h0
  · have hlast := hy (data.length - 1) (Nat.sub_lt hN one_pos)
    have hcast : ((data.length - 1 : ℕ) : ℚ) + 1 = (data.length : ℚ) := by
      have := Nat.succ_pred_eq_of_pos hN
      exact_mod_cast this
    rw [hlast, hcast, div_self (ne_of_gt hNQ)]

/-- Witness for C1 at the concrete input `[3, 1, 2]`. -/
theorem ecdf_spec_witness :
    (([3, 1, 2] : List ℚ) ≠ [] ∧
    (ecdf [3, 1, 2]).1.length = ([3, 1, 2] : List ℚ).length ∧
    (ecdf [3, 1, 2]).2.length = ([3, 1, 2] : List ℚ).length ∧
    (ecdf [3, 1, 2]).1.Perm [3, 1, 2] ∧
    (ecdf [3, 1, 2]).1.Sorted (· ≤ ·) ∧
    (∀ i, i < ([3, 1, 2] : List ℚ).length →
      (ecdf [3, 1, 2]).2.getD i 0 = ((i : ℚ) + 1) / (([3, 1, 2] : List ℚ).length : ℚ)) ∧
    (ecdf [3, 1, 2]).2.Pairwise (· < ·) ∧
    (ecdf [3, 1, 2]).2.getD 0 0 = 1 / (([3, 1, 2] : List ℚ).length : ℚ) ∧
    (ecdf [3, 1, 2]).2.getD (([3, 1, 2] : List ℚ).length - 1) 0 = 1) :=
  ⟨by decide, ecdf_spec [3, 1, 2] (by decide)⟩

/-- Arithmetic mean of a non-empty list: `sum / N`. -/
def meanVal (s : List ℚ) : ℚ := s.sum / (s.length : ℚ)

/-- Population variance as `np.var` computes it (`ddof = 0`): the mean of
the squared deviations from the mean. -/
def varVal (s : List ℚ) : ℚ := meanVal (s.map (fun x => (x - meanVal s) ^ 2))

/-- `np.mean(signal)` (`src/app.py`, line 135). `none` models the IEEE NaN
that numpy produces (with a runtime warning) on an empty array. -/
def npMean (s : List ℚ) : Option ℚ := if s.isEmpty then none else some (meanVal s)

/-- `np.var(signal)` (`src/app.py`, line 136): population variance
(`ddof = 0` is the numpy default); NaN (`none`) on an empty array. -/
def npVar (s : List ℚ) : Option ℚ := if s.isEmpty then none else some (varVal s)

/-- `np.std(signal)` (`src/app.py`, line 137): the square root of the
population variance; NaN (`none`) on an empty array. -/
noncomputable def npStd (s : List ℚ) : Option ℝ :=
  (npVar s).map (fun v => Real.sqrt (v : ℝ))

/-- `print_statistics` (`src/app.py`, lines 133-140): computes mean,
variance and standard deviation of the signal and logs them. The source
performs no emptiness check and raises no exception; the three computed
values are the observable behaviour modelled here. -/
noncomputable def printStatistics (s : List ℚ) : Option ℚ × Option ℚ × Option ℝ :=
  (npMean s, npVar s, npStd s)

/-- C2: on every non-empty segment, `print_statistics` computes the
arithmetic average, the population variance (sum of squared deviations
from the mean divided by `N`, not `N - 1`) and the square root of that
variance. -/
theorem printStatistics_spec (s : List ℚ) (h : s ≠ []) :
    (printStatistics s).1 = some (s.sum / (s.length : ℚ)) ∧
    (printStatistics s).2.1 =
      some ((s.map (fun x => (x - s.sum / (s.length : ℚ)) ^ 2)).sum / (s.length : ℚ)) ∧
    (printStatistics s).2.2 =
      some (Real.sqrt
        (((s.map (fun x => (x - s.sum / (s.length : ℚ)) ^ 2)).sum / (s.length : ℚ) : ℚ))) := by
  have hne : s.isEmpty = false := by simp [List.isEmpty_iff, h]
  simp [printStatistics, npMean, npVar, npStd, varVal, meanVal, hne, List.length_map]

/-- Witness for C2 at the concrete input `[1, 2, 3]`. -/
theorem printStatistics_spec_witness :
    (([1, 2, 3] : List ℚ) ≠ [] ∧
    (printStatistics [1, 2, 3]).1 = some (([1, 2, 3] : List ℚ).sum / (([1, 2, 3] : List ℚ).length : ℚ)) ∧
    (printStatistics [1, 2, 3]).2.1 =
      some ((([1, 2, 3] : List ℚ).map
        (fun x => (x - ([1, 2, 3] : List ℚ).sum / (([1, 2, 3] : List ℚ).length : ℚ)) ^ 2)).sum /
          (([1, 2, 3] : List ℚ).length : ℚ)) ∧
    (printStatistics [1, 2, 3]).2.2 =
      some (Real.sqrt
        (((([1, 2, 3] : List ℚ).map
          (fun x => (x - ([1, 2, 3] : List ℚ).sum / (([1, 2, 3] : List ℚ).length : ℚ)) ^ 2)).sum /
            (([1, 2, 3] : List ℚ).length : ℚ) : ℚ)))) :=
  ⟨by decide, printStatistics_spec [1, 2, 3] (by decide)⟩

/-- C6 counterexample: on the empty segment, `print_statistics` does not
fail with any `EmptyInputError` (no such check or exception exists in the
source); it silently produces the NaN sentinel (`none`) for mean, variance
and standard deviation. -/
theorem printStatistics_empty_counterexample :
    printStatistics [] = (none, none, none) := by
  simp [printStatistics, npMean, npVar, npStd]

/-- C6 amended: `print_statistics` never raises; it returns the NaN
sentinel triple exactly on the empty segment, and defined (`some`) values
on every non-empty segment. -/
theorem printStatistics_nan_iff (s : List ℚ) :
    printStatistics s = (none, none, none) ↔ s = [] := by
  constructor
  · intro hs
    by_contra hne
    have hb : s.isEmpty = false := by simp [List.isEmpty_iff, hne]
    simp [printStatistics, npMean, hb] at hs
  · rintro rfl
    simp [printStatistics, npMean, npVar, npStd]

/-- The error kinds named by the taxonomy of the design (section 7 of the
specification). -/
inductive AnalysisError
  | emptyInput
  | degenerateDistribution
  | invalidRange
  | sourceRead
deriving DecidableEq

/-- Python slice `l[start : stop]` for non-negative bounds: the elements at
indices `start ≤ i < stop`; out-of-range bounds are clipped, never an
error. -/
def pySlice (l : List ℚ) (start stop : ℕ) : List ℚ := (l.take stop).drop start

/-- `load_ecg_channel` (`src/app.py`, lines 143-152): reads the record
(`wfdb.rdrecord`; a read failure is logged and aborts the run, modelled as
`sourceRead`), selects a channel and returns `signal[start:end]`. The
source contains no bounds check: slicing never fails. -/
def load_ecg_channel (record : Option (List ℚ)) (start stop : ℕ) :
    Except AnalysisError (List ℚ) :=
  match record with
  | none => .error .sourceRead
  | some signal => .ok (pySlice signal start stop)

/-- C7 counterexample: requesting `start = end` (here `2 = 2`, on a
5-sample channel) does not fail with `InvalidRangeError`: extraction
returns `ok []`, and the downstream statistics computation is attempted on
the extracted empty segment, producing NaN sentinels instead of an error. -/
theorem load_eq_bounds_counterexample :
    load_ecg_channel (some [5, 6, 7, 8, 9]) 2 2 = Except.ok [] ∧
    printStatistics [] = (none, none, none) := by
  constructor
  · rfl
  · simp [printStatistics, npMean, npVar, npStd]

/-- C7 amended: for every channel and every `start = end` request,
extraction succeeds with the empty segment (no `InvalidRangeError` exists
in the source), and the downstream statistics computation on that segment
is attempted, yielding NaN sentinels rather than an error. -/
theorem load_eq_bounds_empty (signal : List ℚ) (start : ℕ) :
    load_ecg_channel (some signal) start start = Except.ok [] ∧
    printStatistics [] = (none, none, none) := by
  constructor
  · show Except.ok (pySlice signal start start) = Except.ok []
    have hlen : (signal.take start).length ≤ start := by
      simp [List.length_take]
    simp [pySlice, List.drop_eq_nil_iff, hlen]
  · simp [printStatistics, npMean, npVar, npStd]

/-- `signal - np.mean(signal)`: the mean-centered segment
(`src/app.py`, line 101). -/
def centered (s : List ℚ) : List ℚ := s.map (fun x => x - meanVal s)

/-- `scipy.signal.correlate(a, v)` in the full mode for 1-D arrays: entry `k`
(for `k = 0 .. len(a) + len(v) - 2`) is the sum of `a[i] * v[j]` over the
index pairs aligned at displacement `k`, i.e. those with
`i + (len(v) - 1) = j + k`; entry `len(v) - 1` is the zero-lag value. -/
def correlateFull (a v : List ℚ) : List ℚ :=
  (List.range (a.length + v.length - 1)).map (fun k =>
    ∑ p ∈ (Finset.range a.length ×ˢ Finset.range v.length).filter
        (fun p => p.1 + (v.length - 1) = p.2 + k),
      a.getD p.1 0 * v.getD p.2 0)

/-- The autocorrelation descriptor of `plot_autocorrelation`
(`src/app.py`, lines 99-103): full correlation of the mean-centered signal
with itself, then `acorr = acorr[acorr.size // 2:]`, keeping the entries
from the zero-lag peak onward. -/
def acorr (s : List ℚ) : List ℚ :=
  (correlateFull (centered s) (centered s)).drop
    ((correlateFull (centered s) (centered s)).length / 2)

/-- `lags = np.arange(0, len(acorr))` (`src/app.py`, line 103). -/
def acorrLags (s : List ℚ) : List ℕ := List.range (acorr s).length

lemma length_centered (s : List ℚ) : (centered s).length = s.length := by
  simp [centered]

lemma length_correlateFull (a v : List ℚ) :
    (correlateFull a v).length = a.length + v.length - 1 := by
  simp [correlateFull]

lemma correlateFull_zero_lag (a : List ℚ) (h : a ≠ []) :
    (correlateFull a a).getD (a.length - 1) 0 =
      ∑ i ∈ Finset.range a.length, (a.getD i 0) ^ 2 := by
  have hN : 0 < a.length := List.length_pos.2 h
  have hk : a.length - 1 < a.length + a.length - 1 := by omega
  rw [correlateFull, getD_map_range _ _ _ hk]
  rw [Finset.sum_filter, Finset.sum_product]
  refine Finset.sum_congr rfl ?_
  intro i hi
  have hcond : ∀ j : ℕ,
      (i + (a.length - 1) = j + (a.length - 1)) = (i = j) := by
    intro j; apply propext; omega
  simp only [hcond]
  rw [Finset.sum_ite_eq]
  simp [Finset.mem_range.1 hi, sq]

/-- C3: on every non-empty segment of length `N`, the autocorrelation
pipeline builds the full correlation of the mean-centered segment with
itself (length `2N - 1`), discards the negative-lag half by dropping the
first `N - 1` entries, returns exactly `N` values with lags `0 .. N - 1`,
and the lag-0 value is the sum of squared mean-centered samples. -/
theorem acorr_spec (s : List ℚ) (h : s ≠ []) :
    (correlateFull (centered s) (centered s)).length = 2 * s.length - 1 ∧
    acorr s = (correlateFull (centered s) (centered s)).drop (s.length - 1) ∧
    (acorr s).length = s.length ∧
    acorrLags s = List.range s.length ∧
    (acorr s).getD 0 0 =
      ∑ i ∈ Finset.range s.length, ((centered s).getD i 0) ^ 2 := by
  have hN : 0 < s.length := List.length_pos.2 h
  have hcne : centered s ≠ [] := by
    rw [← List.length_pos, length_centered]; exact hN
  have hclen : (correlateFull (centered s) (centered s)).length = 2 * s.length - 1 := by
    rw [length_correlateFull, length_centered]; omega
  have hhalf : (correlateFull (centered s) (centered s)).length / 2 = s.length - 1 := by
    rw [hclen]; omega
  have hdrop : acorr s = (correlateFull (centered s) (centered s)).drop (s.length - 1) := by
    rw [acorr, hhalf]
  have hlen : (acorr s).length = s.length := by
    rw [hdrop, List.length_drop, hclen]; omega
  refine ⟨hclen, hdrop, hlen, by rw [acorrLags, hlen], ?_⟩
  rw [hdrop]
  rw [List.getD_eq_getElem?_getD, List.getElem?_drop, Nat.add_zero,
    ← List.getD_eq_getElem?_getD]
  have := correlateFull_zero_lag (centered s) hcne
  rw [length_centered] at this
  exact this

/-- Witness for C3 at the concrete input `[1, 2, 4]`. -/
theorem acorr_spec_witness :
    (([1, 2, 4] : List ℚ) ≠ [] ∧
    ((correlateFull (centered [1, 2, 4]) (centered [1, 2, 4])).length =
      2 * ([1, 2, 4] : List ℚ).length - 1 ∧
    acorr [1, 2, 4] =
      (correlateFull (centered [1, 2, 4]) (centered [1, 2, 4])).drop
        (([1, 2, 4] : List ℚ).length - 1) ∧
    (acorr [1, 2, 4]).length = ([1, 2, 4] : List ℚ).length ∧
    acorrLags [1, 2, 4] = List.range ([1, 2, 4] : List ℚ).length ∧
    (acorr [1, 2, 4]).getD 0 0 =
      ∑ i ∈ Finset.range ([1, 2, 4] : List ℚ).length,
        ((centered [1, 2, 4]).getD i 0) ^ 2)) :=
  ⟨by decide, acorr_spec [1, 2, 4] (by decide)⟩

lemma meanVal_replicate (n : ℕ) (c : ℚ) (h : 0 < n) :
    meanVal (List.replicate n c) = c := by
  have hn : (n : ℚ) ≠ 0 := by exact_mod_cast h.ne'
  rw [meanVal, List.sum_replicate, List.length_replicate, nsmul_eq_mul,
    mul_comm, mul_div_assoc, div_self hn, mul_one]

lemma centered_replicate (n : ℕ) (c : ℚ) (h : 0 < n) :
    centered (List.replicate n c) = List.replicate n 0 := by
  simp [centered, List.map_replicate, meanVal_replicate n c h]

lemma getD_replicate_zero (n i : ℕ) : (List.replicate n (0 : ℚ)).getD i 0 = 0 := by
  rcases lt_or_ge i n with hlt | hge
  · simp [List.getD_eq_getElem?_getD, List.getElem?_replicate, hlt]
  · simp [List.getD_eq_getElem?_getD, List.getElem?_replicate, Nat.not_lt.2 hge]

lemma correlateFull_replicate_zero (n : ℕ) :
    correlateFull (List.replicate n (0 : ℚ)) (List.replicate n 0) =
      List.replicate (n + n - 1) 0 := by
  rw [List.eq_replicate_iff]
  constructor
  · simp [correlateFull]
  · intro b hb
    simp only [correlateFull, List.length_replicate, List.mem_map, List.mem_range] at hb
    obtain ⟨k, -, rfl⟩ := hb
    apply Finset.sum_eq_zero
    intro p _
    rw [getD_replicate_zero, zero_mul]

/-- C4: for every constant-valued segment the autocorrelation computation
succeeds (it is a total computation whose only division is the division
by `N` inside the mean) and every returned value is `0`. -/
theorem acorr_const (n : ℕ) (c : ℚ) (h : 1 ≤ n) :
    acorr (List.replicate n c) = List.replicate n 0 := by
  rw [acorr, centered_replicate n c h, correlateFull_replicate_zero,
    List.drop_replicate]
  congr 1
  simp only [List.length_replicate]
  omega

/-- Witness for C4: the segment `[1, 1, 1, 1, 1]` yields the
autocorrelation `[0, 0, 0, 0, 0]`. -/
theorem acorr_const_witness :
    ((1 : ℕ) ≤ 5 ∧ acorr [1, 1, 1, 1, 1] = ([0, 0, 0, 0, 0] : List ℚ)) :=
  ⟨by decide, acorr_const 5 1 (by decide)⟩

/-- Modelled from the spec: `scipy.stats.gaussian_kde` (called at
`src/app.py`, line 82) is a library routine whose code is not part of this
repository. Per the specification (sections 4.3 and 7), the estimator uses
the Scott bandwidth `std(samples) * N^(-1/5)` and is undefined
(infinite-bandwidth, singular data covariance) for zero-variance input:
such input fails with `DegenerateDistributionError`, and a zero-length
dataset fails with `EmptyInputError`. On valid input the estimate is the
average of Gaussian kernels of that bandwidth centered at the samples. -/
noncomputable def gaussian_kde (dataset : List ℚ) :
    Except AnalysisError (ℝ → ℝ) :=
  if dataset.length = 0 then .error .emptyInput
  else if varVal dataset = 0 then .error .degenerateDistribution
  else
    .ok (fun t =>
      let bw : ℝ :=
        Real.sqrt ((varVal dataset : ℚ)) * (dataset.length : ℝ) ^ (-(1 / 5 : ℝ))
      (∑ i ∈ Finset.range dataset.length,
        Real.exp (-((t - ((dataset.getD i 0 : ℚ) : ℝ)) ^ 2) / (2 * bw ^ 2))) /
        ((dataset.length : ℝ) * bw * Real.sqrt (2 * Real.pi)))

lemma varVal_replicate (n : ℕ) (c : ℚ) : varVal (List.replicate n c) = 0 := by
  rcases Nat.eq_zero_or_pos n with rfl | hn
  · simp [varVal, meanVal]
  · rw [varVal, meanVal_replicate n c hn, List.map_replicate]
    simpa using meanVal_replicate n 0 hn

/-- C5: every non-empty segment with fewer than two distinct values (all
samples equal to some `c`) makes the density estimation fail with
`DegenerateDistributionError`. -/
theorem gaussian_kde_degenerate (s : List ℚ) (h : s ≠ [])
    (c : ℚ) (hall : ∀ x ∈ s, x = c) :
    gaussian_kde s = Except.error AnalysisError.degenerateDistribution := by
  have hs : s = List.replicate s.length c := List.eq_replicate_iff.2 ⟨rfl, hall⟩
  have hvar : varVal s = 0 := by
    conv_lhs => rw [hs]
    exact varVal_replicate s.length c
  have hlen : s.length ≠ 0 := by
    simpa [List.length_eq_zero] using h
  simp [gaussian_kde, hlen, hvar]

/-- Witness for C5 at the concrete constant segment `[2, 2, 2]`. -/
theorem gaussian_kde_degenerate_witness :
    (([2, 2, 2] : List ℚ) ≠ [] ∧ (∀ x ∈ ([2, 2, 2] : List ℚ), x = 2) ∧
    gaussian_kde [2, 2, 2] = Except.error AnalysisError.degenerateDistribution) :=
  ⟨by decide, by decide, gaussian_kde_degenerate [2, 2, 2] (by decide) 2 (by decide)⟩

/-- Sub-segment-length argument the source supplies to the spectral
estimator: `welch(signal, fs=fs, nperseg=2048)` (`src/app.py`, line 119)
passes the constant `2048` for every input; the source itself contains no
branch reducing it for short inputs. -/
def plotPsdNperseg (_signal : List ℚ) : ℕ := 2048

/-- Modelled from the spec: inside `scipy.signal.welch` (a library routine
whose code is not part of this repository) the effective sub-segment
length is the requested one, automatically reduced to the input length
when the input is shorter than requested (the library emits a warning and
continues rather than failing). -/
def welchNperseg (requested inputLen : ℕ) : ℕ := min requested inputLen

/-- One-sided frequency grid of the Welch estimate: `nper / 2 + 1` bins at
multiples of `fs / nper`, ending at the Nyquist bin. -/
def welchFreqs (fs : ℚ) (nper : ℕ) : List ℚ :=
  (List.range (nper / 2 + 1)).map (fun k : ℕ => (k : ℚ) * fs / (nper : ℚ))

/-- Hann taper of length `M` at index `i`. -/
noncomputable def hannWindow (M i : ℕ) : ℝ :=
  (1 - Real.cos (2 * Real.pi * (i : ℝ) / (M : ℝ))) / 2

/-- Sub-segment of `s` of length `nper` starting at sample `start`. -/
def subSegment (s : List ℚ) (start nper : ℕ) : List ℚ :=
  (s.drop start).take nper

/-- Squared magnitude of the discrete Fourier transform of the Hann-tapered
sub-segment at frequency bin `k`: the periodogram value of one sub-segment
(up to a positive scale factor). -/
noncomputable def periodogram (seg : List ℚ) (k : ℕ) : ℝ :=
  (∑ n ∈ Finset.range seg.length,
      ((seg.getD n 0 : ℚ) : ℝ) * hannWindow seg.length n *
        Real.cos (2 * Real.pi * (k : ℝ) * (n : ℝ) / (seg.length : ℝ))) ^ 2 +
  (∑ n ∈ Finset.range seg.length,
      ((seg.getD n 0 : ℚ) : ℝ) * hannWindow seg.length n *
        Real.sin (2 * Real.pi * (k : ℝ) * (n : ℝ) / (seg.length : ℝ))) ^ 2

/-- Modelled from the spec: the Welch power values — partition the input
into half-overlapping sub-segments of the effective length, taper each
with the Hann window, and average the periodograms of the sub-segments per
frequency bin. -/
noncomputable def welchPower (s : List ℚ) (npersegArg : ℕ) : List ℝ :=
  let nper := welchNperseg npersegArg s.length
  let step := nper - nper / 2
  let nsegs := (s.length - nper) / step + 1
  (List.range (nper / 2 + 1)).map (fun k : ℕ =>
    (∑ j ∈ Finset.range nsegs, periodogram (subSegment s (j * step) nper) k) /
      (nsegs : ℝ))

/-- Modelled from the spec: `scipy.signal.welch` returns the one-sided
frequency grid and the averaged-periodogram power estimate. -/
noncomputable def welch (s : List ℚ) (fs : ℚ) (npersegArg : ℕ) :
    List ℚ × List ℝ :=
  (welchFreqs fs (welchNperseg npersegArg s.length), welchPower s npersegArg)

/-- Descriptor computation of `plot_psd` (`src/app.py`, lines 117-119):
`f, Pxx = welch(signal, fs=fs, nperseg=2048)`. -/
noncomputable def plot_psd (signal : List ℚ) (fs : ℚ) : List ℚ × List ℝ :=
  welch signal fs (plotPsdNperseg signal)

lemma nyquist_bound (n : ℕ) (fs : ℚ) (hn : 0 < n) (hfs : 0 < fs) :
    |((n / 2 : ℕ) : ℚ) * fs / (n : ℚ) - fs / 2| ≤ fs / (2 * (n : ℚ)) := by
  rcases Nat.even_or_odd n with he | ho
  · obtain ⟨m, rfl⟩ := he
    have hm : 0 < m := by omega
    have h2 : ((m + m) / 2 : ℕ) = m := by omega
    have hmq : ((m + m : ℕ) : ℚ) = 2 * (m : ℚ) := by push_cast; ring
    have hmne : (m : ℚ) ≠ 0 := by exact_mod_cast hm.ne'
    rw [h2, hmq]
    have hz : (m : ℚ) * fs / (2 * (m : ℚ)) - fs / 2 = 0 := by
      field_simp
      ring
    rw [hz, abs_zero]
    positivity
  · obtain ⟨m, rfl⟩ := ho
    have h2 : ((2 * m + 1) / 2 : ℕ) = m := by omega
    have hq : ((2 * m + 1 : ℕ) : ℚ) = 2 * (m : ℚ) + 1 := by push_cast; ring
    have hpos : (0 : ℚ) < 2 * (m : ℚ) + 1 := by positivity
    rw [h2, hq]
    have hval : (m : ℚ) * fs / (2 * (m : ℚ) + 1) - fs / 2 =
        -(fs / (2 * (2 * (m : ℚ) + 1))) := by
      field_simp
      ring
    rw [hval, abs_neg, abs_of_nonneg (by positivity)]

/-- C8: for every non-empty segment and positive sampling rate, the PSD
frequencies and power values are all non-negative, and the top of the
frequency grid is within half a frequency bin of `fs / 2` (exactly `fs / 2`
for an even effective sub-segment length). -/
theorem plot_psd_spec (s : List ℚ) (fs : ℚ) (h : s ≠ []) (hfs : 0 < fs) :
    (∀ f ∈ (plot_psd s fs).1, 0 ≤ f) ∧
    (∀ p ∈ (plot_psd s fs).2, 0 ≤ p) ∧
    |(plot_psd s fs).1.getD (welchNperseg 2048 s.length / 2) 0 - fs / 2| ≤
      fs / (2 * (welchNperseg 2048 s.length : ℚ)) := by
  have hN : 0 < s.length := List.length_pos.2 h
  have hn : 0 < welchNperseg 2048 s.length := by
    simp only [welchNperseg]
    omega
  refine ⟨?_, ?_, ?_⟩
  · intro f hf
    simp only [plot_psd, welch, plotPsdNperseg, welchFreqs, List.mem_map,
      List.mem_range] at hf
    obtain ⟨k, -, rfl⟩ := hf
    apply div_nonneg (mul_nonneg (Nat.cast_nonneg k) hfs.le) (Nat.cast_nonneg _)
  · intro p hp
    simp only [plot_psd, welch, plotPsdNperseg, welchPower, List.mem_map,
      List.mem_range] at hp
    obtain ⟨k, -, rfl⟩ := hp
    apply div_nonneg
    · apply Finset.sum_nonneg
      intro j _
      simp only [periodogram]
      positivity
    · exact Nat.cast_nonneg _
  · have hidx : welchNperseg 2048 s.length / 2 <
        welchNperseg 2048 s.length / 2 + 1 := Nat.lt_succ_self _
    simp only [plot_psd, welch, plotPsdNperseg, welchFreqs]
    rw [getD_map_range _ _ _ hidx]
    exact nyquist_bound _ fs hn hfs

/-- Witness for C8 at the concrete segment `[1, 2]` with `fs = 4`. -/
theorem plot_psd_spec_witness :
    (([1, 2] : List ℚ) ≠ [] ∧ (0 : ℚ) < 4 ∧
    ((∀ f ∈ (plot_psd [1, 2] 4).1, 0 ≤ f) ∧
    (∀ p ∈ (plot_psd [1, 2] 4).2, 0 ≤ p) ∧
    |(plot_psd [1, 2] 4).1.getD (welchNperseg 2048 ([1, 2] : List ℚ).length / 2) 0 -
        (4 : ℚ) / 2| ≤
      (4 : ℚ) / (2 * (welchNperseg 2048 ([1, 2] : List ℚ).length : ℚ)))) :=
  ⟨by decide, by decide, plot_psd_spec [1, 2] 4 (by decide) (by decide)⟩

/-- C9 counterexample: for a 5-sample input the sub-segment-length argument
that the repository passes to the spectral estimator is still the constant
`2048`, not the input length: the reduction to `5` happens inside the
library model (`welchNperseg`), not in any explicit branch of the
repository code. -/
theorem plot_psd_nperseg_counterexample :
    plotPsdNperseg (List.replicate 5 (1 : ℚ)) = 2048 ∧
    (List.replicate 5 (1 : ℚ)).length = 5 ∧
    welchNperseg 2048 5 = 5 ∧ (2048 : ℕ) ≠ 5 := by
  exact ⟨rfl, by simp, rfl, by decide⟩

/-- C9 amended: for inputs shorter than 2048 samples the spectral
estimation does not fail hard — the effective sub-segment length drops to
the input length and a full one-sided grid of `len / 2 + 1` bins is
produced — but the reduction is the implicit library fallback: the
repository code itself passes the constant `2048` unconditionally. -/
theorem plot_psd_short_segment (s : List ℚ) (fs : ℚ) (_h : s ≠ [])
    (hshort : s.length < 2048) :
    plotPsdNperseg s = 2048 ∧
    welchNperseg (plotPsdNperseg s) s.length = s.length ∧
    (plot_psd s fs).1.length = s.length / 2 + 1 ∧
    (plot_psd s fs).2.length = s.length / 2 + 1 := by
  have hmin : welchNperseg 2048 s.length = s.length := by
    simp only [welchNperseg]
    omega
  refine ⟨rfl, hmin, ?_, ?_⟩
  · simp [plot_psd, welch, welchFreqs, plotPsdNperseg, hmin]
  · simp [plot_psd, welch, welchPower, plotPsdNperseg, hmin]

/-- Witness for the amended C9 at the concrete 4-sample segment. -/
theorem plot_psd_short_segment_witness :
    (([1, 2, 3, 4] : List ℚ) ≠ [] ∧ ([1, 2, 3, 4] : List ℚ).length < 2048 ∧
    (plotPsdNperseg [1, 2, 3, 4] = 2048 ∧
    welchNperseg (plotPsdNperseg [1, 2, 3, 4]) ([1, 2, 3, 4] : List ℚ).length =
      ([1, 2, 3, 4] : List ℚ).length ∧
    (plot_psd [1, 2, 3, 4] 250).1.length = ([1, 2, 3, 4] : List ℚ).length / 2 + 1 ∧
    (plot_psd [1, 2, 3, 4] 250).2.length = ([1, 2, 3, 4] : List ℚ).length / 2 + 1)) :=
  ⟨by decide, by decide, plot_psd_short_segment [1, 2, 3, 4] 250 (by decide) (by decide)⟩

/-- Call to `np.sort` with the array of the caller threaded as explicit
state: the first component is the freshly allocated sorted copy that
`np.sort` returns, the second is the state of the input array after the
call — unchanged, because `np.sort(data)` copies (only the method form
`data.sort()` would mutate in place). -/
def npSortCall (buffer : List ℚ) : List ℚ × List ℚ :=
  (buffer.mergeSort (fun a b => a ≤ b), buffer)

/-- The `ecdf` computation (`src/app.py`, lines 41-45) with the array of
the caller threaded as explicit state; the third component is that array
after the call. -/
def ecdfCall (buffer : List ℚ) : (List ℚ × List ℚ) × List ℚ :=
  (((npSortCall buffer).1,
    (List.range (npSortCall buffer).1.length).map
      (fun i : ℕ => ((i : ℚ) + 1) / ((npSortCall buffer).1.length : ℚ))),
    (npSortCall buffer).2)

/-- C10: `ecdf` leaves the array of the caller unchanged — sorting happens
on the fresh copy returned by `np.sort` — and the returned pair is exactly
the `ecdf` value. -/
theorem ecdf_preserves_input (data : List ℚ) :
    (ecdfCall data).2 = data ∧ (ecdfCall data).1 = ecdf data :=
  ⟨rfl, rfl⟩
